import Mathlib

set_option autoImplicit false

namespace FastWorker

/-- Model of Python values that flow through the task system: the payloads of
Task `args`/`kwargs`/`result` fields and the wire message dictionaries.
Timestamps (Python `datetime`) are abstracted to `Nat`. -/
inductive PyVal : Type where
  | pynone : PyVal
  | pybool : Bool → PyVal
  | pyint : Int → PyVal
  | pystr : String → PyVal
  | pydatetime : Nat → PyVal
  | pylist : List PyVal → PyVal
  | pytuple : List PyVal → PyVal
  | pydict : List (String × PyVal) → PyVal
  deriving Repr

/-- JSON document values, the image of `json.dumps`/`json.loads` in
`fastworker/tasks/serializer.py` (floats do not occur in the core shapes). -/
inductive JVal : Type where
  | jnull : JVal
  | jbool : Bool → JVal
  | jint : Int → JVal
  | jstr : String → JVal
  | jarr : List JVal → JVal
  | jobj : List (String × JVal) → JVal
  deriving Repr

/-- String rendering of a modelled datetime, standing for Python `str(datetime)`
which `json.dumps(..., default=str)` applies to non-JSON values. -/
def datetimeRepr (t : Nat) : String :=
  toString t

mutual

/-- Embedding of `TaskSerializer.serialize` under `SerializationFormat.JSON`:
`json.dumps(data, default=str)` maps datetimes to their string rendering and
tuples to JSON arrays. -/
def jsonEncode : PyVal → JVal
  | .pynone => .jnull
  | .pybool b => .jbool b
  | .pyint n => .jint n
  | .pystr s => .jstr s
  | .pydatetime t => .jstr (datetimeRepr t)
  | .pylist xs => .jarr (jsonEncodeList xs)
  | .pytuple xs => .jarr (jsonEncodeList xs)
  | .pydict kvs => .jobj (jsonEncodeDict kvs)

def jsonEncodeList : List PyVal → List JVal
  | [] => []
  | v :: vs => jsonEncode v :: jsonEncodeList vs

def jsonEncodeDict : List (String × PyVal) → List (String × JVal)
  | [] => []
  | (k, v) :: kvs => (k, jsonEncode v) :: jsonEncodeDict kvs

end

mutual

/-- Embedding of `TaskSerializer.deserialize` under `SerializationFormat.JSON`:
`json.loads` yields lists for arrays and dicts for objects; strings stay strings. -/
def jsonDecode : JVal → PyVal
  | .jnull => .pynone
  | .jbool b => .pybool b
  | .jint n => .pyint n
  | .jstr s => .pystr s
  | .jarr xs => .pylist (jsonDecodeList xs)
  | .jobj kvs => .pydict (jsonDecodeDict kvs)

def jsonDecodeList : List JVal → List PyVal
  | [] => []
  | v :: vs => jsonDecode v :: jsonDecodeList vs

def jsonDecodeDict : List (String × JVal) → List (String × PyVal)
  | [] => []
  | (k, v) :: kvs => (k, jsonDecode v) :: jsonDecodeDict kvs

end

mutual

/-- A value is JSON-safe when it contains no datetime and no tuple: exactly the
values that survive `json.loads(json.dumps(..., default=str))` unchanged. -/
def jsonSafe : PyVal → Bool
  | .pynone => true
  | .pybool _ => true
  | .pyint _ => true
  | .pystr _ => true
  | .pydatetime _ => false
  | .pylist xs => jsonSafeList xs
  | .pytuple _ => false
  | .pydict kvs => jsonSafeDict kvs

def jsonSafeList : List PyVal → Bool
  | [] => true
  | v :: vs => jsonSafe v && jsonSafeList vs

def jsonSafeDict : List (String × PyVal) → Bool
  | [] => true
  | (_, v) :: kvs => jsonSafe v && jsonSafeDict kvs

end

/-- Pickle wire object graph. Unlike JSON, the pickle protocol records the
Python type of every node, so the wire form keeps the datetime/tuple/list/dict
distinction; this type mirrors `PyVal` constructor for constructor. -/
inductive PkVal : Type where
  | pknone : PkVal
  | pkbool : Bool → PkVal
  | pkint : Int → PkVal
  | pkstr : String → PkVal
  | pkdatetime : Nat → PkVal
  | pklist : List PkVal → PkVal
  | pktuple : List PkVal → PkVal
  | pkdict : List (String × PkVal) → PkVal
  deriving Repr

mutual

/-- Embedding of `TaskSerializer.serialize` under `SerializationFormat.PICKLE`:
`pickle.dumps` preserves the full typed object graph. -/
def pickleEncode : PyVal → PkVal
  | .pynone => .pknone
  | .pybool b => .pkbool b
  | .pyint n => .pkint n
  | .pystr s => .pkstr s
  | .pydatetime t => .pkdatetime t
  | .pylist xs => .pklist (pickleEncodeList xs)
  | .pytuple xs => .pktuple (pickleEncodeList xs)
  | .pydict kvs => .pkdict (pickleEncodeDict kvs)

def pickleEncodeList : List PyVal → List PkVal
  | [] => []
  | v :: vs => pickleEncode v :: pickleEncodeList vs

def pickleEncodeDict : List (String × PyVal) → List (String × PkVal)
  | [] => []
  | (k, v) :: kvs => (k, pickleEncode v) :: pickleEncodeDict kvs

end

mutual

/-- Embedding of `TaskSerializer.deserialize` under `SerializationFormat.PICKLE`:
`pickle.loads` rebuilds every node at its recorded Python type. -/
def pickleDecode : PkVal → PyVal
  | .pknone => .pynone
  | .pkbool b => .pybool b
  | .pkint n => .pyint n
  | .pkstr s => .pystr s
  | .pkdatetime t => .pydatetime t
  | .pklist xs => .pylist (pickleDecodeList xs)
  | .pktuple xs => .pytuple (pickleDecodeList xs)
  | .pkdict kvs => .pydict (pickleDecodeDict kvs)

def pickleDecodeList : List PkVal → List PyVal
  | [] => []
  | v :: vs => pickleDecode v :: pickleDecodeList vs

def pickleDecodeDict : List (String × PkVal) → List (String × PyVal)
  | [] => []
  | (k, v) :: kvs => (k, pickleDecode v) :: pickleDecodeDict kvs

end

/-- The wire dictionary produced by `Task.model_dump()` in
`fastworker/tasks/models.py`: every Task message carries a `created_at`
datetime. -/
def taskMsg (id name : String) (args : List PyVal) (kwargs : List (String × PyVal))
    (priority : String) (createdAt : Nat) (status : String) : PyVal :=
  .pydict
    [("id", .pystr id), ("name", .pystr name), ("args", .pytuple args),
     ("kwargs", .pydict kwargs), ("priority", .pystr priority),
     ("created_at", .pydatetime createdAt), ("started_at", .pynone),
     ("completed_at", .pynone), ("status", .pystr status), ("result", .pynone),
     ("error", .pynone), ("callback", .pynone)]

/-- Model of `TaskPriority` from `fastworker/tasks/models.py`. -/
inductive TaskPriority : Type where
  | critical | high | normal | low
  deriving DecidableEq, Repr

/-- Model of `TaskStatus` from `fastworker/tasks/models.py`. -/
inductive TaskStatus : Type where
  | pending | started | success | failure
  deriving DecidableEq, Repr

/-- Model of `CallbackInfo` from `fastworker/tasks/models.py`. -/
structure CallbackInfo : Type where
  address : String
  data : Option (List (String × PyVal))

/-- The `Task` model from `fastworker/tasks/models.py`; timestamps are
abstracted to `Nat`. -/
structure Task : Type where
  id : String
  name : String
  args : List PyVal := []
  kwargs : List (String × PyVal) := []
  priority : TaskPriority := .normal
  created_at : Nat := 0
  started_at : Option Nat := none
  completed_at : Option Nat := none
  status : TaskStatus := .pending
  result : PyVal := .pynone
  error : Option String := none
  callback : Option CallbackInfo := none

/-- The `TaskResult` model from `fastworker/tasks/models.py`. -/
structure TaskResult : Type where
  task_id : String
  status : TaskStatus
  result : PyVal := .pynone
  error : Option String := none
  started_at : Option Nat := none
  completed_at : Option Nat := none
  callback : Option CallbackInfo := none

/-- One value of the control plane's `self.subworkers` dict
(`control_plane.py`): address, status, last_seen, load and registered_at. -/
structure SubRecord : Type where
  address : String
  status : String
  lastSeen : Nat
  load : Nat
  registeredAt : Nat

/-- One value of the control plane's `self.result_cache` OrderedDict
(`control_plane.py`): result, stored_at and last_accessed. -/
structure CacheEntry : Type where
  result : TaskResult
  storedAt : Nat
  lastAccessed : Nat

/-- The result cache, modelling the `OrderedDict`: the list order is the
access order, least-recently-accessed first, most-recently-accessed last. -/
def Cache : Type := List (String × CacheEntry)

/-- The subworker registry, modelling the `self.subworkers` dict in insertion
order. -/
def Registry : Type := List (String × SubRecord)

/-- The eviction loop of `_store_result`: `while len(cache) >= max_size`,
delete the first (least-recently-accessed) entry of the OrderedDict. -/
def evictLRU (maxSize : Nat) : List (String × CacheEntry) → List (String × CacheEntry)
  | [] => []
  | e :: rest => if (e :: rest).length ≥ maxSize then evictLRU maxSize rest else e :: rest

/-- Embedding of `_store_result` from `control_plane.py`: delete an existing entry with the
same key, evict least-recently-accessed entries while size ≥ max, then append
the new entry at the most-recently-accessed end with
`stored_at = last_accessed = now`. -/
def storeResult (maxSize now : Nat) (cache : List (String × CacheEntry)) (r : TaskResult) :
    List (String × CacheEntry) :=
  let cache1 := cache.eraseP (fun e => e.1 == r.task_id)
  let cache2 := evictLRU maxSize cache1
  cache2 ++ [(r.task_id, { result := r, storedAt := now, lastAccessed := now })]

/-- Embedding of `_get_result` from `control_plane.py`: absent key returns `none`; an entry
older than the TTL is deleted and `none` is returned; otherwise the entry's
`last_accessed` is set to `now`, the key moves to the most-recently-accessed
end (`move_to_end`), and the stored `TaskResult` is returned. -/
def getResult (ttl now : Nat) (cache : List (String × CacheEntry)) (taskId : String) :
    List (String × CacheEntry) × Option TaskResult :=
  match cache.lookup taskId with
  | none => (cache, none)
  | some entry =>
    if now - entry.storedAt > ttl then
      (cache.eraseP (fun e => e.1 == taskId), none)
    else
      (cache.eraseP (fun e => e.1 == taskId) ++
        [(taskId, { entry with lastAccessed := now })], some entry.result)

/-- One pass of `_cleanup_result_cache` from `control_plane.py`: delete every
entry whose age exceeds the TTL. -/
def cleanupCache (ttl now : Nat) (cache : List (String × CacheEntry)) :
    List (String × CacheEntry) :=
  cache.filter (fun e => ¬ (now - e.2.storedAt > ttl))

/-- The fold inside Python's `min(active_subworkers.items(), key=lambda x: x[1]["load"])`:
keeps the first item whose load is strictly minimal. -/
def minByLoad (x : String × SubRecord) (xs : List (String × SubRecord)) : String × SubRecord :=
  xs.foldl (fun best y => if y.2.load < best.2.load then y else best) x

/-- Embedding of `_select_subworker` from `control_plane.py`: filter the records with status
`"active"`; if none, return `none`; otherwise return the id of the record with
the minimum load. The `priority` argument is accepted and unused, as in the
source. -/
def selectSubworker (subs : List (String × SubRecord)) (_priority : TaskPriority) :
    Option String :=
  match subs.filter (fun e => e.2.status == "active") with
  | [] => none
  | a :: rest => some (minByLoad a rest).1

/-- A registration/heartbeat message read by `_handle_subworker_registrations`:
`registration.get` returns `None` for missing keys, modelled by `Option`. -/
structure RegMsg : Type where
  subworker_id : Option String
  address : Option String
  status : Option String
  heartbeat : Option Bool
  deriving DecidableEq, Repr

/-- The acknowledgment dict sent back to a subworker: status `registered`
plus the subworker id. -/
structure RegAck : Type where
  status : String
  subworker_id : String
  deriving DecidableEq, Repr

/-- Python truthiness of `registration.get(...)` for a string field: false for
a missing key (`None`) and for the empty string. -/
def truthyField : Option String → Bool
  | none => false
  | some s => s ≠ ""

/-- Dict-style update of the record stored under a key. -/
def updateRecord (sid : String) (f : SubRecord → SubRecord) :
    List (String × SubRecord) → List (String × SubRecord)
  | [] => []
  | (k, r) :: rest =>
    if k == sid then (k, f r) :: rest else (k, r) :: updateRecord sid f rest

/-- The body of `_handle_subworker_registrations` from `control_plane.py` for
one received message: when both `subworker_id` and `address` are truthy, an
existing record gets `last_seen = now` and the new status (load, address and
registered_at preserved), a new id is inserted with load 0, and the ack
with status `registered` and the subworker id is sent; otherwise the state
is untouched and no ack is sent. The `heartbeat` field is parsed but unused. -/
def handleRegistration (now : Nat) (subs : List (String × SubRecord)) (msg : RegMsg) :
    List (String × SubRecord) × Option RegAck :=
  let sid := msg.subworker_id.getD ""
  let addr := msg.address.getD ""
  let status := msg.status.getD "active"
  if truthyField msg.subworker_id && truthyField msg.address then
    match subs.lookup sid with
    | some _ =>
      (updateRecord sid (fun r => { r with lastSeen := now, status := status }) subs,
       some { status := "registered", subworker_id := sid })
    | none =>
      (subs ++ [(sid, { address := addr, status := status, lastSeen := now,
                        load := 0, registeredAt := now })],
       some { status := "registered", subworker_id := sid })
  else
    (subs, none)

/-- The four priority deques of `self.task_queue` in `control_plane.py`.
The list head is the deque head (`popleft` pops the head, `appendleft` pushes
onto the head). -/
structure PQueues : Type where
  critical : List Task := []
  high : List Task := []
  normal : List Task := []
  low : List Task := []

def PQueues.get (q : PQueues) : TaskPriority → List Task
  | .critical => q.critical
  | .high => q.high
  | .normal => q.normal
  | .low => q.low

def PQueues.set (q : PQueues) : TaskPriority → List Task → PQueues
  | .critical, l => { q with critical := l }
  | .high, l => { q with high := l }
  | .normal, l => { q with normal := l }
  | .low, l => { q with low := l }

/-- The control-plane state owned by `ControlPlaneWorker`: the subworker
registry, the four priority deques, and the result cache. -/
structure CPState : Type where
  subworkers : List (String × SubRecord) := []
  queues : PQueues := {}
  cache : List (String × CacheEntry) := []

/-- The source line `self.task_queue[task.priority].appendleft(task)`. -/
def requeueHead (st : CPState) (task : Task) : CPState :=
  { st with queues := st.queues.set task.priority (task :: st.queues.get task.priority) }

/-- The source line incrementing the load counter of subworker `sid` by one. -/
def incrLoad (st : CPState) (sid : String) : CPState :=
  { st with subworkers := updateRecord sid (fun r => { r with load := r.load + 1 }) st.subworkers }

/-- The source line setting the load counter of subworker `sid` to
`max(0, load - 1)`: on `Nat`, truncated
subtraction is exactly the floored decrement. -/
def decrLoad (st : CPState) (sid : String) : CPState :=
  { st with subworkers := updateRecord sid (fun r => { r with load := r.load - 1 }) st.subworkers }

/-- The possible fates of the transport interaction inside
`_send_task_to_subworker`: the dial (`requester.start()`) raising, the send
raising, the receive raising, or a reply arriving. -/
inductive TransportOutcome : Type where
  | dialFail
  | sendFail
  | recvFail
  | ok (reply : TaskResult)

def TransportOutcome.isFailure : TransportOutcome → Bool
  | .dialFail => true
  | .sendFail => true
  | .recvFail => true
  | .ok _ => false

/-- Observable steps of `_send_task_to_subworker`, in program order. An event
is recorded only for an operation that completed. -/
inductive FwdEvent : Type where
  | dialStart
  | sendBytes
  | loadIncr
  | recvReply
  | storeCache
  | loadDecr
  | replyClient
  | requeueHeadEv
  deriving DecidableEq, Repr

/-- Embedding of `_send_task_to_subworker` from `control_plane.py`. Mirrors the source
control flow: a missing registry entry or a failed dial hits the outer
`except`, which only re-queues the task at the head of its deque; a failed
send hits the inner `except`, which decrements the load (floor zero) and
re-queues; on the success path the load is incremented only *after* the send,
the reply is received, the result cached, the load decremented, and the reply
bytes forwarded to the client. No path executes the task locally and no
failure path sends anything to the client. -/
def sendTaskToSubworker (maxSize now : Nat) (st : CPState) (task : Task) (sid : String)
    (outcome : TransportOutcome) : CPState × Option TaskResult × List FwdEvent :=
  match st.subworkers.lookup sid with
  | none => (requeueHead st task, none, [.requeueHeadEv])
  | some _ =>
    match outcome with
    | .dialFail =>
      (requeueHead st task, none, [.requeueHeadEv])
    | .sendFail =>
      (requeueHead (decrLoad st sid) task, none, [.dialStart, .loadDecr, .requeueHeadEv])
    | .recvFail =>
      (requeueHead (decrLoad (incrLoad st sid) sid) task, none,
       [.dialStart, .sendBytes, .loadIncr, .loadDecr, .requeueHeadEv])
    | .ok reply =>
      let st1 := incrLoad st sid
      let st2 := { st1 with cache := storeResult maxSize now st1.cache reply }
      let st3 := decrLoad st2 sid
      (st3, some reply,
       [.dialStart, .sendBytes, .loadIncr, .recvReply, .storeCache, .loadDecr, .replyClient])

/-- The dispatch decision in `_process_tasks` from `control_plane.py` for one
received task: if `_select_subworker` returns a subworker, forward via
`_send_task_to_subworker` (the reply to the client, if any, is whatever that
call sends); otherwise execute locally — `execResult` stands for the
`TaskResult` computed by `_execute_task` — cache it and reply with it. The
`Bool` component records whether the task was executed locally for this
request. -/
def processTask (maxSize now : Nat) (st : CPState) (task : Task)
    (outcome : TransportOutcome) (execResult : TaskResult) :
    CPState × Option TaskResult × Bool :=
  match selectSubworker st.subworkers task.priority with
  | some sid =>
    let r := sendTaskToSubworker maxSize now st task sid outcome
    (r.1, r.2.1, false)
  | none =>
    ({ st with cache := storeResult maxSize now st.cache execResult },
     some execResult, true)

/-- One scan of a single priority deque inside `_distribute_queued_tasks` from
`control_plane.py`: pop the head if the deque is nonempty, compute the
subworker selection, and in *both* branches execute the popped task locally
(`asyncio.create_task(self._execute_task(task))`), discarding its result. The
returned list collects the tasks handed to local execution. -/
def distributeStep (st : CPState) (p : TaskPriority) : CPState × List Task :=
  match st.queues.get p with
  | [] => (st, [])
  | t :: rest =>
    let st' := { st with queues := st.queues.set p rest }
    match selectSubworker st.subworkers p with
    | some _ => (st', [t])
    | none => (st', [t])

/-- One iteration of the `while` loop of `_distribute_queued_tasks`: scan the
four priorities in order CRITICAL, HIGH, NORMAL, LOW. -/
def distributeSweep (st : CPState) : CPState × List Task :=
  let r1 := distributeStep st .critical
  let r2 := distributeStep r1.1 .high
  let r3 := distributeStep r2.1 .normal
  let r4 := distributeStep r3.1 .low
  (r4.1, r1.2 ++ r2.2 ++ r3.2 ++ r4.2)

/-- Python `str.split(":")` without maxsplit, over the character list. -/
def pySplitColon : List Char → List (List Char)
  | [] => [[]]
  | c :: cs =>
    if c = ':' then [] :: pySplitColon cs
    else
      match pySplitColon cs with
      | [] => [[c]]
      | p :: ps => (c :: p) :: ps

/-- Split off the part before the first colon, if any colon exists. -/
def splitOnceColon : List Char → Option (List Char × List Char)
  | [] => none
  | c :: cs =>
    if c = ':' then some ([], cs)
    else (splitOnceColon cs).map (fun p => (c :: p.1, p.2))

/-- Python `str.split(":", 2)`: at most two splits, the remainder kept
verbatim. -/
def pySplitColon2 (s : List Char) : List (List Char) :=
  match splitOnceColon s with
  | none => [s]
  | some (a, rest) =>
    match splitOnceColon rest with
    | none => [a, rest]
    | some (b, rest2) => [a, b, rest2]

/-- The literal `"WORKER_ANNOUNCE:"` checked by `message.startswith(...)`. -/
def announceTag : List Char :=
  "WORKER_ANNOUNCE:".toList

/-- The announcement parser of `Worker._listen_for_peers` in
`fastworker/workers/worker.py`: `message.split(":")` (no maxsplit), then
`(parts[1], parts[2])` when at least three parts exist. -/
def listenForPeersParse (msg : List Char) : Option (List Char × List Char) :=
  if announceTag.isPrefixOf msg then
    let parts := pySplitColon msg
    if parts.length ≥ 3 then some (parts.getD 1 [], parts.getD 2 []) else none
  else none

/-- The announcement parser of `Client._listen_for_workers` in
`fastqueue/clients/client.py`: `message.split(":", 2)`, then
`(parts[1], parts[2])` when at least three parts exist. -/
def listenForWorkersParse (msg : List Char) : Option (List Char × List Char) :=
  if announceTag.isPrefixOf msg then
    let parts := pySplitColon2 msg
    if parts.length ≥ 3 then some (parts.getD 1 [], parts.getD 2 []) else none
  else none

/-- Checks that every `sendBytes` event in a trace is immediately followed by
a `loadIncr` event. -/
def incrFollowsSend : List FwdEvent → Bool
  | [] => true
  | .sendBytes :: rest =>
    match rest with
    | .loadIncr :: _ => incrFollowsSend rest
    | _ => false
  | _ :: rest => incrFollowsSend rest

/-- Checks that every `sendBytes` event in a trace is preceded (not
necessarily immediately) by some `loadIncr` event; `seen` records whether an
increment has already occurred. -/
def incrBeforeSendFrom (seen : Bool) : List FwdEvent → Bool
  | [] => true
  | .loadIncr :: rest => incrBeforeSendFrom true rest
  | .sendBytes :: rest => seen && incrBeforeSendFrom seen rest
  | _ :: rest => incrBeforeSendFrom seen rest

/-- A concrete subworker record used in witnesses and counterexamples. -/
def sampleRecord : SubRecord :=
  { address := "tcp://127.0.0.1:6000", status := "active", lastSeen := 0,
    load := 0, registeredAt := 0 }

/-- A control-plane state with one active subworker `s1` and empty queues and
cache. -/
def sampleState : CPState :=
  { subworkers := [("s1", sampleRecord)], queues := {}, cache := [] }

/-- A concrete NORMAL-priority task. -/
def sampleTask : Task :=
  { id := "t1", name := "add", priority := .normal }

/-- A concrete successful result for `sampleTask`. -/
def sampleResult : TaskResult :=
  { task_id := "t1", status := .success, result := .pyint 5 }

/-- A concrete announcement message whose address part contains colons. -/
def sampleAnnounce : List Char :=
  "WORKER_ANNOUNCE:worker-1:tcp://127.0.0.1:5555".toList

/-- The Task wire dictionary of `sampleTask`, as `model_dump()` produces it. -/
def sampleTaskMsg : PyVal :=
  taskMsg "t1" "add" [] [] "normal" 0 "pending"

/-- The wire dictionary of a registration message, which is JSON-safe. -/
def sampleRegMsgVal : PyVal :=
  .pydict [("subworker_id", .pystr "s1"), ("address", .pystr "tcp://127.0.0.1:6000"),
           ("status", .pystr "active")]

/-- A well-formed registration message for subworker `s1`. -/
def sampleRegMsg : RegMsg :=
  { subworker_id := some "s1", address := some "tcp://127.0.0.1:6000",
    status := some "active", heartbeat := none }

mutual

theorem jsonSafe_roundtrip : ∀ (v : PyVal), jsonSafe v = true → jsonDecode (jsonEncode v) = v
  | .pynone, _ => rfl
  | .pybool _, _ => rfl
  | .pyint _, _ => rfl
  | .pystr _, _ => rfl
  | .pylist xs, h => by
      simp only [jsonEncode, jsonDecode, PyVal.pylist.injEq]
      exact jsonSafeList_roundtrip xs (by simpa [jsonSafe] using h)
  | .pydict kvs, h => by
      simp only [jsonEncode, jsonDecode, PyVal.pydict.injEq]
      exact jsonSafeDict_roundtrip kvs (by simpa [jsonSafe] using h)

theorem jsonSafeList_roundtrip : ∀ (xs : List PyVal), jsonSafeList xs = true →
    jsonDecodeList (jsonEncodeList xs) = xs
  | [], _ => rfl
  | v :: vs, h => by
      have h' : jsonSafe v = true ∧ jsonSafeList vs = true := by
        simpa [jsonSafeList, Bool.and_eq_true] using h
      simp only [jsonEncodeList, jsonDecodeList, List.cons.injEq]
      exact ⟨jsonSafe_roundtrip v h'.1, jsonSafeList_roundtrip vs h'.2⟩

theorem jsonSafeDict_roundtrip : ∀ (kvs : List (String × PyVal)), jsonSafeDict kvs = true →
    jsonDecodeDict (jsonEncodeDict kvs) = kvs
  | [], _ => rfl
  | (k, v) :: kvs, h => by
      have h' : jsonSafe v = true ∧ jsonSafeDict kvs = true := by
        simpa [jsonSafeDict, Bool.and_eq_true] using h
      simp only [jsonEncodeDict, jsonDecodeDict, List.cons.injEq, Prod.mk.injEq]
      exact ⟨⟨trivial, jsonSafe_roundtrip v h'.1⟩, jsonSafeDict_roundtrip kvs h'.2⟩

end

mutual

theorem pickle_roundtrip : ∀ (v : PyVal), pickleDecode (pickleEncode v) = v
  | .pynone => rfl
  | .pybool _ => rfl
  | .pyint _ => rfl
  | .pystr _ => rfl
  | .pydatetime _ => rfl
  | .pylist xs => by
      simp only [pickleEncode, pickleDecode, PyVal.pylist.injEq]
      exact pickle_roundtrip_list xs
  | .pytuple xs => by
      simp only [pickleEncode, pickleDecode, PyVal.pytuple.injEq]
      exact pickle_roundtrip_list xs
  | .pydict kvs => by
      simp only [pickleEncode, pickleDecode, PyVal.pydict.injEq]
      exact pickle_roundtrip_dict kvs

theorem pickle_roundtrip_list : ∀ (xs : List PyVal), pickleDecodeList (pickleEncodeList xs) = xs
  | [] => rfl
  | v :: vs => by
      simp only [pickleEncodeList, pickleDecodeList, List.cons.injEq]
      exact ⟨pickle_roundtrip v, pickle_roundtrip_list vs⟩

theorem pickle_roundtrip_dict : ∀ (kvs : List (String × PyVal)),
    pickleDecodeDict (pickleEncodeDict kvs) = kvs
  | [] => rfl
  | (k, v) :: kvs => by
      simp only [pickleEncodeDict, pickleDecodeDict, List.cons.injEq, Prod.mk.injEq]
      exact ⟨⟨trivial, pickle_roundtrip v⟩, pickle_roundtrip_dict kvs⟩

end

theorem lookup_some_mem {β : Type} {l : List (String × β)} {k : String} {v : β}
    (h : l.lookup k = some v) : (k, v) ∈ l := by
  induction l with
  | nil => simp [List.lookup] at h
  | cons e rest ih =>
    obtain ⟨a, b⟩ := e
    by_cases hk : k = a
    · subst hk
      simp [List.lookup] at h
      simp [h]
    · have hba : (k == a) = false := by simpa using hk
      simp only [List.lookup, hba] at h
      exact List.mem_cons_of_mem _ (ih h)

theorem mem_key_lookup_isSome {β : Type} {l : List (String × β)} {k : String} {v : β}
    (h : (k, v) ∈ l) : ∃ v', l.lookup k = some v' := by
  induction l with
  | nil => simp at h
  | cons e rest ih =>
    obtain ⟨a, b⟩ := e
    by_cases hk : k = a
    · subst hk
      exact ⟨b, by simp [List.lookup]⟩
    · rcases List.mem_cons.mp h with heq | hm
      · exact absurd (congrArg Prod.fst heq) hk
      · obtain ⟨v', hv'⟩ := ih hm
        refine ⟨v', ?_⟩
        have hba : (k == a) = false := by simpa using hk
        simp only [List.lookup, hba]
        exact hv'

theorem evictLRU_length_lt (maxSize : Nat) (hM : 1 ≤ maxSize) :
    ∀ (c : List (String × CacheEntry)), (evictLRU maxSize c).length < maxSize
  | [] => by simpa [evictLRU]
  | e :: rest => by
    rw [evictLRU]
    by_cases h : (e :: rest).length ≥ maxSize
    · rw [if_pos h]
      exact evictLRU_length_lt maxSize hM rest
    · rw [if_neg h]
      omega

/-- C2: with a configured maximum `maxSize ≥ 1`, every cache operation keeps
the number of entries at most `maxSize`: `_store_result` (which removes an
existing entry, evicts least-recently-accessed entries while size ≥ max, then
inserts) yields at most `maxSize` entries from any starting cache, and
`_get_result` and the background sweeper never increase the entry count. -/
theorem cache_bound_preserved (maxSize ttl now : Nat) (hM : 1 ≤ maxSize)
    (cache : List (String × CacheEntry)) (r : TaskResult) (k : String)
    (hc : cache.length ≤ maxSize) :
    (storeResult maxSize now cache r).length ≤ maxSize ∧
    ((getResult ttl now cache k).1).length ≤ maxSize ∧
    (cleanupCache ttl now cache).length ≤ maxSize := by
  refine ⟨?_, ?_, ?_⟩
  · rw [storeResult]
    have := evictLRU_length_lt maxSize hM (cache.eraseP (fun e => e.1 == r.task_id))
    simp only [List.length_append, List.length_singleton]
    omega
  · cases hlk : cache.lookup k with
    | none => simp only [getResult, hlk]; simpa using hc
    | some entry =>
      have hmem : (k, entry) ∈ cache := lookup_some_mem hlk
      have hlen : (cache.eraseP (fun e => e.1 == k)).length + 1 = cache.length :=
        List.length_eraseP_add_one hmem (by simp)
      simp only [getResult, hlk]
      by_cases hexp : now - entry.storedAt > ttl
      · rw [if_pos hexp]
        simp only
        omega
      · rw [if_neg hexp]
        simp only [List.length_append, List.length_singleton]
        omega
  · calc (cleanupCache ttl now cache).length ≤ cache.length := List.length_filter_le _ _
      _ ≤ maxSize := hc

/-- C2 witness: a one-entry cache under maximum size 1 stays within bound
after a store, a get and a sweep. -/
theorem cache_bound_preserved_witness :
    (storeResult 1 5 [("a", { result := sampleResult, storedAt := 0, lastAccessed := 0 })]
        sampleResult).length ≤ 1 ∧
    ((getResult 10 5 [("a", { result := sampleResult, storedAt := 0, lastAccessed := 0 })]
        "a").1).length ≤ 1 ∧
    (cleanupCache 10 5 [("a", { result := sampleResult, storedAt := 0, lastAccessed := 0 })]).length ≤ 1 :=
  cache_bound_preserved 1 10 5 (by decide)
    [("a", { result := sampleResult, storedAt := 0, lastAccessed := 0 })]
    sampleResult "a" (by decide)

/-- C3: `_get_result` returns `none` and leaves the cache unchanged when the
key is absent; deletes the entry and returns `none` when its age strictly
exceeds the TTL; and otherwise returns the stored `TaskResult`, setting the
entry's `last_accessed` to now and moving it (with its `stored_at` preserved)
to the most-recently-accessed end of the access order. -/
theorem cache_get_semantics (ttl now : Nat) (cache : List (String × CacheEntry)) (k : String) :
    (cache.lookup k = none → getResult ttl now cache k = (cache, none)) ∧
    (∀ e, cache.lookup k = some e → now - e.storedAt > ttl →
      getResult ttl now cache k = (cache.eraseP (fun x => x.1 == k), none)) ∧
    (∀ e, cache.lookup k = some e → now - e.storedAt ≤ ttl →
      getResult ttl now cache k =
        (cache.eraseP (fun x => x.1 == k) ++
           [(k, { result := e.result, storedAt := e.storedAt, lastAccessed := now })],
         some e.result)) := by
  refine ⟨?_, ?_, ?_⟩
  · intro h
    simp only [getResult, h]
  · intro e he hexp
    simp only [getResult, he]
    rw [if_pos hexp]
  · intro e he hfresh
    simp only [getResult, he]
    rw [if_neg (by omega)]

/-- C3 witness: on a one-entry cache with a fresh entry, get returns the
stored result and reorders the entry to the most-recent end with
`last_accessed` updated. -/
theorem cache_get_semantics_witness :
    getResult 10 5 [("t1", { result := sampleResult, storedAt := 0, lastAccessed := 0 })] "t1" =
      ([("t1", { result := sampleResult, storedAt := 0, lastAccessed := 5 })],
       some sampleResult) := by
  have h := (cache_get_semantics 10 5
    [("t1", { result := sampleResult, storedAt := 0, lastAccessed := 0 })] "t1").2.2
    { result := sampleResult, storedAt := 0, lastAccessed := 0 } (by rfl) (by decide)
  simpa using h

theorem minByLoad_mem : ∀ (xs : List (String × SubRecord)) (x : String × SubRecord),
    minByLoad x xs ∈ x :: xs
  | [], x => by simp [minByLoad]
  | y :: ys, x => by
    rw [minByLoad, List.foldl_cons]
    have h := minByLoad_mem ys (if y.2.load < x.2.load then y else x)
    rw [minByLoad] at h
    rcases List.mem_cons.mp h with heq | hm
    · rw [heq]
      by_cases hy : y.2.load < x.2.load
      · simp [hy]
      · simp [hy]
    · simp [List.mem_cons.mpr (Or.inr hm)]

theorem minByLoad_le : ∀ (xs : List (String × SubRecord)) (x y : String × SubRecord),
    y ∈ x :: xs → (minByLoad x xs).2.load ≤ y.2.load
  | [], x, y, hy => by
    have hyx : y = x := by simpa using hy
    subst hyx
    simp [minByLoad]
  | z :: zs, x, y, hy => by
    rw [minByLoad, List.foldl_cons]
    have hx' : (minByLoad (if z.2.load < x.2.load then z else x) zs).2.load ≤
        (if z.2.load < x.2.load then z else x).2.load := by
      have := minByLoad_le zs (if z.2.load < x.2.load then z else x)
        (if z.2.load < x.2.load then z else x) (List.mem_cons_self _ _)
      rw [minByLoad] at this ⊢
      exact this
    rcases List.mem_cons.mp hy with heq | hm
    · rw [heq]
      by_cases hz : z.2.load < x.2.load
      · rw [if_pos hz] at hx' ⊢
        rw [minByLoad] at hx'
        omega
      · rw [if_neg hz] at hx' ⊢
        rw [minByLoad] at hx'
        exact hx'
    · rcases List.mem_cons.mp hm with heq | hm'
      · rw [heq]
        by_cases hz : z.2.load < x.2.load
        · rw [if_pos hz] at hx' ⊢
          rw [minByLoad] at hx'
          exact hx'
        · rw [if_neg hz] at hx' ⊢
          rw [minByLoad] at hx'
          omega
      · have := minByLoad_le zs (if z.2.load < x.2.load then z else x) y
          (List.mem_cons_of_mem _ hm')
        rw [minByLoad] at this
        exact this

/-- C4: `_select_subworker` returns `none` exactly when no record has status
`"active"`; otherwise the returned id belongs to an active record whose load
is at most the load of every active record. -/
theorem select_subworker_balanced (subs : List (String × SubRecord)) (p : TaskPriority) :
    (selectSubworker subs p = none ↔
      subs.filter (fun e => e.2.status == "active") = []) ∧
    (∀ sid, selectSubworker subs p = some sid →
      ∃ rec, (sid, rec) ∈ subs ∧ rec.status = "active" ∧
        ∀ sid' rec', (sid', rec') ∈ subs → rec'.status = "active" →
          rec.load ≤ rec'.load) := by
  cases hf : subs.filter (fun e => e.2.status == "active") with
  | nil =>
    refine ⟨by simp [selectSubworker, hf], ?_⟩
    intro sid hsid
    rw [selectSubworker, hf] at hsid
    exact absurd hsid (by simp)
  | cons a rest =>
    constructor
    · rw [selectSubworker, hf]
      simp
    · intro sid hsid
      rw [selectSubworker, hf] at hsid
      have hm := minByLoad_mem rest a
      rw [← hf] at hm
      have hmem := List.mem_filter.mp hm
      refine ⟨(minByLoad a rest).2, ?_, ?_, ?_⟩
      · rw [Option.some.injEq] at hsid
        rw [← hsid]
        exact hmem.1
      · simpa using hmem.2
      · intro sid' rec' hmem' hact'
        have hin : (sid', rec') ∈ a :: rest := by
          rw [← hf]
          exact List.mem_filter.mpr ⟨hmem', by simpa using hact'⟩
        exact minByLoad_le rest a (sid', rec') hin

/-- C4 witness: with two active subworkers of loads 10 and 5, selection
returns the id of the load-5 record, which is active and of minimal load. -/
theorem select_subworker_balanced_witness :
    ∃ rec, ("sw2", rec) ∈
        [("sw1", { sampleRecord with load := 10 }), ("sw2", { sampleRecord with load := 5 })] ∧
      rec.status = "active" ∧
      ∀ sid' rec',
        (sid', rec') ∈
          [("sw1", { sampleRecord with load := 10 }), ("sw2", { sampleRecord with load := 5 })] →
        rec'.status = "active" → rec.load ≤ rec'.load :=
  (select_subworker_balanced
    [("sw1", { sampleRecord with load := 10 }), ("sw2", { sampleRecord with load := 5 })]
    .normal).2 "sw2" (by rfl)

/-- C6 counterexample: it is not true that the registration loop responds to
every received message — a message whose `subworker_id` is missing (and
likewise one whose `address` is missing or empty) is dropped without any
acknowledgment being sent. -/
theorem registration_ack_counterexample :
    ¬ ∀ (now : Nat) (subs : List (String × SubRecord)) (msg : RegMsg),
      ((handleRegistration now subs msg).2).isSome = true := by
  intro h
  have := h 0 []
    { subworker_id := none, address := some "tcp://127.0.0.1:6000",
      status := some "active", heartbeat := none }
  simp [handleRegistration, truthyField] at this

/-- C6 amended: the registration loop replies
with status `registered` and the echoed subworker id exactly when the received message
carries a truthy (present and non-empty) `subworker_id` and a truthy
`address`; any other accepted message updates nothing and gets no response. -/
theorem registration_ack_amended (now : Nat) (subs : List (String × SubRecord)) (msg : RegMsg) :
    ((handleRegistration now subs msg).2).isSome =
      (truthyField msg.subworker_id && truthyField msg.address) ∧
    (∀ ack, (handleRegistration now subs msg).2 = some ack →
      ack = { status := "registered", subworker_id := msg.subworker_id.getD "" }) ∧
    ((truthyField msg.subworker_id && truthyField msg.address) = false →
      handleRegistration now subs msg = (subs, none)) := by
  cases htt : (truthyField msg.subworker_id && truthyField msg.address) with
  | false =>
    refine ⟨?_, ?_, ?_⟩
    · simp [handleRegistration, htt]
    · intro ack hack
      simp [handleRegistration, htt] at hack
    · intro _
      simp [handleRegistration, htt]
  | true =>
    refine ⟨?_, ?_, ?_⟩
    · cases hlk : subs.lookup (msg.subworker_id.getD "") <;>
        simp [handleRegistration, htt, hlk]
    · intro ack hack
      cases hlk : subs.lookup (msg.subworker_id.getD "") <;>
        · simp [handleRegistration, htt, hlk] at hack
          exact hack.symm
    · intro hcontra
      exact absurd hcontra (by decide)

/-- C6 witness: a well-formed registration message always elicits the
`registered` acknowledgment. -/
theorem registration_ack_amended_witness :
    (handleRegistration 7 [] sampleRegMsg).2 =
      some { status := "registered", subworker_id := "s1" } := by
  have h := registration_ack_amended 7 [] sampleRegMsg
  cases hack : (handleRegistration 7 [] sampleRegMsg).2 with
  | none =>
    have h1 := h.1
    rw [hack] at h1
    exact absurd h1 (by decide)
  | some ack =>
    rw [h.2.1 ack hack]
    rfl

/-- C10: the registration handler's behaviour does not depend on the
`heartbeat` field — a message with any heartbeat value produces the same
registry update and the same acknowledgment as the same message without it. -/
theorem registration_ignores_heartbeat (now : Nat) (subs : List (String × SubRecord))
    (msg : RegMsg) (hb : Option Bool) :
    handleRegistration now subs { msg with heartbeat := hb } =
      handleRegistration now subs msg := rfl

theorem PQueues.get_set (q : PQueues) (p p' : TaskPriority) (l : List Task) :
    (q.set p l).get p' = if p' = p then l else q.get p' := by
  cases p <;> cases p' <;> simp [PQueues.get, PQueues.set]

theorem distributeStep_eq (st : CPState) (p : TaskPriority) :
    distributeStep st p =
      match st.queues.get p with
      | [] => (st, [])
      | t :: rest => ({ st with queues := st.queues.set p rest }, [t]) := by
  rw [distributeStep]
  cases st.queues.get p with
  | nil => rfl
  | cons t rest => cases selectSubworker st.subworkers p <;> rfl

theorem distributeStep_subworkers (st : CPState) (p : TaskPriority) :
    (distributeStep st p).1.subworkers = st.subworkers := by
  rw [distributeStep_eq]
  cases st.queues.get p <;> rfl

theorem distributeStep_cache (st : CPState) (p : TaskPriority) :
    (distributeStep st p).1.cache = st.cache := by
  rw [distributeStep_eq]
  cases st.queues.get p <;> rfl

theorem distributeStep_queues (st : CPState) (p p' : TaskPriority) :
    (distributeStep st p).1.queues.get p' =
      if p' = p then (st.queues.get p).tail else st.queues.get p' := by
  rw [distributeStep_eq]
  cases hq : st.queues.get p with
  | nil =>
    by_cases hp : p' = p
    · subst hp
      simp [hq]
    · simp [hp]
  | cons t rest =>
    simp only
    rw [PQueues.get_set]
    by_cases hp : p' = p
    · simp [hp]
    · simp [hp]

theorem distributeStep_popped (st : CPState) (p : TaskPriority) :
    (distributeStep st p).2 = (st.queues.get p).take 1 := by
  rw [distributeStep_eq]
  cases st.queues.get p <;> simp

/-- C9: one pass of the background queued-task distributor pops the head of
each nonempty priority deque (in order CRITICAL, HIGH, NORMAL, LOW) and hands
exactly those tasks to local execution with their results discarded: the
result cache and the subworker registry — in particular every load counter —
are left unchanged, each deque loses exactly its head, the popped tasks are
executed locally regardless of whether an active subworker exists, and the
pass produces no reply to any client (the model of the distributor has no
reply channel, as the source sends none). -/
theorem distributor_discards_results (st : CPState) :
    (distributeSweep st).1.cache = st.cache ∧
    (distributeSweep st).1.subworkers = st.subworkers ∧
    (∀ p, (distributeSweep st).1.queues.get p = (st.queues.get p).tail) ∧
    (distributeSweep st).2 =
      (st.queues.get .critical).take 1 ++ (st.queues.get .high).take 1 ++
      (st.queues.get .normal).take 1 ++ (st.queues.get .low).take 1 := by
  rw [distributeSweep]
  have hs1 := distributeStep_subworkers st .critical
  have hc1 := distributeStep_cache st .critical
  have hq1 := distributeStep_queues st .critical
  have hp1 := distributeStep_popped st .critical
  set st1 := (distributeStep st .critical).1 with hst1
  have hs2 := distributeStep_subworkers st1 .high
  have hc2 := distributeStep_cache st1 .high
  have hq2 := distributeStep_queues st1 .high
  have hp2 := distributeStep_popped st1 .high
  set st2 := (distributeStep st1 .high).1 with hst2
  have hs3 := distributeStep_subworkers st2 .normal
  have hc3 := distributeStep_cache st2 .normal
  have hq3 := distributeStep_queues st2 .normal
  have hp3 := distributeStep_popped st2 .normal
  set st3 := (distributeStep st2 .normal).1 with hst3
  have hs4 := distributeStep_subworkers st3 .low
  have hc4 := distributeStep_cache st3 .low
  have hq4 := distributeStep_queues st3 .low
  have hp4 := distributeStep_popped st3 .low
  have hgets1 : ∀ p', st1.queues.get p' =
      if p' = .critical then (st.queues.get .critical).tail else st.queues.get p' := hq1
  have hgets2 : ∀ p', st2.queues.get p' =
      if p' = .high then (st1.queues.get .high).tail else st1.queues.get p' := hq2
  have hgets3 : ∀ p', st3.queues.get p' =
      if p' = .normal then (st2.queues.get .normal).tail else st2.queues.get p' := hq3
  refine ⟨?_, ?_, ?_, ?_⟩
  · rw [hc4, hc3, hc2, hc1]
  · rw [hs4, hs3, hs2, hs1]
  · intro p
    cases p <;> simp [hq4, hgets3, hgets2, hgets1]
  · simp [hp1, hp2, hp3, hp4, hgets3, hgets2, hgets1]

theorem selectSubworker_lookup {subs : List (String × SubRecord)} {p : TaskPriority}
    {sid : String} (h : selectSubworker subs p = some sid) :
    ∃ rec, subs.lookup sid = some rec := by
  rw [selectSubworker] at h
  cases hf : subs.filter (fun e => e.2.status == "active") with
  | nil =>
    rw [hf] at h
    exact absurd h (by simp)
  | cons a rest =>
    rw [hf] at h
    rw [Option.some.injEq] at h
    have hm := minByLoad_mem rest a
    rw [← hf] at hm
    have hmem := (List.mem_filter.mp hm).1
    rw [← h]
    exact mem_key_lookup_isSome hmem

theorem updateRecord_comp (sid : String) (f g : SubRecord → SubRecord) :
    ∀ (subs : List (String × SubRecord)),
      updateRecord sid g (updateRecord sid f subs) = updateRecord sid (fun r => g (f r)) subs
  | [] => rfl
  | (k, r) :: rest => by
    by_cases hk : (k == sid) = true
    · simp only [updateRecord, hk, if_pos]
    · simp only [updateRecord, hk, if_neg, Bool.false_eq_true, not_false_iff]
      rw [updateRecord_comp sid f g rest]

theorem updateRecord_id (sid : String) (f : SubRecord → SubRecord) (hf : ∀ r, f r = r) :
    ∀ (subs : List (String × SubRecord)), updateRecord sid f subs = subs
  | [] => rfl
  | (k, r) :: rest => by
    rw [updateRecord]
    by_cases hk : (k == sid) = true
    · rw [if_pos hk, hf r]
    · rw [if_neg hk, updateRecord_id sid f hf rest]

theorem requeueHead_get_self (st : CPState) (task : Task) :
    (requeueHead st task).queues.get task.priority = task :: st.queues.get task.priority := by
  simp [requeueHead, PQueues.get_set]

theorem requeueHead_get_ne (st : CPState) (task : Task) (p : TaskPriority)
    (hp : p ≠ task.priority) :
    (requeueHead st task).queues.get p = st.queues.get p := by
  simp [requeueHead, PQueues.get_set, hp]

theorem incr_decr_subworkers (st : CPState) (sid : String) :
    (decrLoad (incrLoad st sid) sid).subworkers = st.subworkers := by
  show updateRecord sid _ (updateRecord sid _ st.subworkers) = st.subworkers
  rw [updateRecord_comp]
  exact updateRecord_id sid _ (fun r => by simp) st.subworkers

/-- C1 counterexample: with an active subworker selected and a transport
failure while awaiting the reply, the control plane neither executes the task
locally for this request nor produces any reply to the client — contradicting
the claim that it does both. -/
theorem forwarding_failure_counterexample :
    ¬ ((processTask 10 0 sampleState sampleTask .recvFail sampleResult).2.2 = true ∧
       ((processTask 10 0 sampleState sampleTask .recvFail sampleResult).2.1).isSome = true) := by
  intro h
  exact absurd h.1 (by decide)

/-- C1 amended: when a subworker is selected and the transport fails while
opening the dial, sending, or awaiting the reply, the control plane pushes the
Task onto the head of its priority deque (other deques and the cache
untouched), but it does not execute the task locally for this request and
sends no reply to the client; the subworker's load counter is net-unchanged on
a dial or receive failure, and is decremented with a floor of zero on a send
failure (where no matching increment had happened yet). -/
theorem forwarding_failure_amended (maxSize now : Nat) (st : CPState) (task : Task)
    (outcome : TransportOutcome) (execResult : TaskResult) (sid : String)
    (hsel : selectSubworker st.subworkers task.priority = some sid)
    (hfail : outcome.isFailure = true) :
    (processTask maxSize now st task outcome execResult).2.1 = none ∧
    (processTask maxSize now st task outcome execResult).2.2 = false ∧
    (processTask maxSize now st task outcome execResult).1.cache = st.cache ∧
    (processTask maxSize now st task outcome execResult).1.queues.get task.priority =
      task :: st.queues.get task.priority ∧
    (∀ p, p ≠ task.priority →
      (processTask maxSize now st task outcome execResult).1.queues.get p =
        st.queues.get p) ∧
    ((outcome = .dialFail ∨ outcome = .recvFail) →
      (processTask maxSize now st task outcome execResult).1.subworkers = st.subworkers) ∧
    (outcome = .sendFail →
      (processTask maxSize now st task outcome execResult).1.subworkers =
        updateRecord sid (fun r => { r with load := r.load - 1 }) st.subworkers) := by
  obtain ⟨rec, hlk⟩ := selectSubworker_lookup hsel
  simp only [processTask, hsel]
  cases outcome with
  | ok reply => exact absurd hfail (by simp [TransportOutcome.isFailure])
  | dialFail =>
    simp only [sendTaskToSubworker, hlk]
    refine ⟨trivial, trivial, rfl, requeueHead_get_self st task, ?_, ?_, ?_⟩
    · intro p hp
      exact requeueHead_get_ne st task p hp
    · intro _
      rfl
    · intro hcontra
      exact absurd hcontra (by simp)
  | sendFail =>
    simp only [sendTaskToSubworker, hlk]
    refine ⟨trivial, trivial, rfl, requeueHead_get_self (decrLoad st sid) task, ?_, ?_, ?_⟩
    · intro p hp
      exact requeueHead_get_ne (decrLoad st sid) task p hp
    · intro hcontra
      rcases hcontra with hcontra | hcontra <;> exact absurd hcontra (by simp)
    · intro _
      rfl
  | recvFail =>
    simp only [sendTaskToSubworker, hlk]
    refine ⟨trivial, trivial, rfl,
      requeueHead_get_self (decrLoad (incrLoad st sid) sid) task, ?_, ?_, ?_⟩
    · intro p hp
      exact requeueHead_get_ne (decrLoad (incrLoad st sid) sid) task p hp
    · intro _
      exact incr_decr_subworkers st sid
    · intro hcontra
      exact absurd hcontra (by simp)

/-- C1 amended witness: in the one-subworker state, a send failure re-queues
the task at the head of the NORMAL deque, replies nothing, and decrements the
subworker's load. -/
theorem forwarding_failure_amended_witness :
    (processTask 10 0 sampleState sampleTask .sendFail sampleResult).2.1 = none ∧
    (processTask 10 0 sampleState sampleTask .sendFail sampleResult).2.2 = false ∧
    (processTask 10 0 sampleState sampleTask .sendFail sampleResult).1.queues.get .normal =
      [sampleTask] := by
  have h := forwarding_failure_amended 10 0 sampleState sampleTask .sendFail sampleResult
    "s1" (by rfl) (by rfl)
  exact ⟨h.1, h.2.1, h.2.2.2.1⟩

/-- C8 counterexample: it is not true that the forwarding send only happens
after the load counter has been incremented — on the success path the source
increments the counter just after `requester.send`, so the send occurs while
the counter is still un-incremented. -/
theorem load_increment_order_counterexample :
    ¬ ∀ (maxSize now : Nat) (st : CPState) (task : Task) (sid : String)
        (outcome : TransportOutcome),
      incrBeforeSendFrom false
        (sendTaskToSubworker maxSize now st task sid outcome).2.2 = true := by
  intro h
  have := h 10 0 sampleState sampleTask "s1" (.ok sampleResult)
  exact absurd this (by decide)

/-- C8 amended: in every forwarding execution the load increment happens
immediately *after* the forwarding send (and before the reply is awaited); the
increment occurs exactly when the send completed (receive-failure and success
outcomes); a decrement — with floor zero, as the counter is a natural number —
occurs on every outcome except a dial failure, which leaves the registry
untouched; and on a successful round trip the increment and decrement cancel,
leaving every load counter as it started. -/
theorem load_counter_discipline (maxSize now : Nat) (st : CPState) (task : Task)
    (sid : String) (outcome : TransportOutcome) (rec : SubRecord)
    (hlk : st.subworkers.lookup sid = some rec) :
    incrFollowsSend (sendTaskToSubworker maxSize now st task sid outcome).2.2 = true ∧
    (((sendTaskToSubworker maxSize now st task sid outcome).2.2).contains .loadIncr =
      ((sendTaskToSubworker maxSize now st task sid outcome).2.2).contains .sendBytes) ∧
    (((sendTaskToSubworker maxSize now st task sid outcome).2.2).contains .loadDecr ↔
      outcome ≠ .dialFail) ∧
    (outcome = .dialFail →
      (sendTaskToSubworker maxSize now st task sid outcome).1.subworkers = st.subworkers) ∧
    (∀ r, outcome = .ok r →
      (sendTaskToSubworker maxSize now st task sid outcome).1.subworkers = st.subworkers) := by
  cases outcome with
  | dialFail =>
    refine ⟨by simp [sendTaskToSubworker, hlk, incrFollowsSend], ?_, ?_, ?_, ?_⟩
    · simp [sendTaskToSubworker, hlk]
    · simp [sendTaskToSubworker, hlk]
    · intro _
      simp [sendTaskToSubworker, hlk, requeueHead]
    · intro r hr
      exact absurd hr (by simp)
  | sendFail =>
    refine ⟨by simp [sendTaskToSubworker, hlk, incrFollowsSend], ?_, ?_, ?_, ?_⟩
    · simp [sendTaskToSubworker, hlk]
    · simp [sendTaskToSubworker, hlk]
    · intro hcontra
      exact absurd hcontra (by simp)
    · intro r hr
      exact absurd hr (by simp)
  | recvFail =>
    refine ⟨by simp [sendTaskToSubworker, hlk, incrFollowsSend], ?_, ?_, ?_, ?_⟩
    · simp [sendTaskToSubworker, hlk]
    · simp [sendTaskToSubworker, hlk]
    · intro hcontra
      exact absurd hcontra (by simp)
    · intro r hr
      exact absurd hr (by simp)
  | ok reply =>
    refine ⟨by simp [sendTaskToSubworker, hlk, incrFollowsSend], ?_, ?_, ?_, ?_⟩
    · simp [sendTaskToSubworker, hlk]
    · simp [sendTaskToSubworker, hlk]
    · intro hcontra
      exact absurd hcontra (by simp)
    · intro r _
      simp only [sendTaskToSubworker, hlk]
      exact incr_decr_subworkers { st with cache := storeResult maxSize now st.cache reply } sid

/-- C8 amended witness: a successful forwarding round trip in the
one-subworker state keeps the increment right after the send and returns the
load counter to its starting value. -/
theorem load_counter_discipline_witness :
    incrFollowsSend
      (sendTaskToSubworker 10 0 sampleState sampleTask "s1" (.ok sampleResult)).2.2 = true ∧
    (sendTaskToSubworker 10 0 sampleState sampleTask "s1"
        (.ok sampleResult)).1.subworkers = sampleState.subworkers := by
  have h := load_counter_discipline 10 0 sampleState sampleTask "s1" (.ok sampleResult)
    sampleRecord (by rfl)
  exact ⟨h.1, h.2.2.2.2 sampleResult rfl⟩

theorem isPrefixOf_append_self {α : Type} [BEq α] [LawfulBEq α] :
    ∀ (l t : List α), l.isPrefixOf (l ++ t) = true
  | [], _ => by simp [List.isPrefixOf]
  | a :: l, t => by
    simp only [List.cons_append, List.isPrefixOf, BEq.refl, Bool.true_and]
    exact isPrefixOf_append_self l t

theorem splitOnceColon_append : ∀ (xs ys : List Char), ':' ∉ xs →
    splitOnceColon (xs ++ ':' :: ys) = some (xs, ys)
  | [], ys, _ => by simp [splitOnceColon]
  | c :: xs, ys, h => by
    have hc : ¬ c = ':' := fun hc => h (by simp [hc])
    have hxs : ':' ∉ xs := fun hm => h (List.mem_cons_of_mem _ hm)
    simp only [List.cons_append, List.append_eq, splitOnceColon, if_neg hc,
      splitOnceColon_append xs ys hxs]
    rfl

theorem pySplitColon_append : ∀ (xs ys : List Char), ':' ∉ xs →
    pySplitColon (xs ++ ':' :: ys) = xs :: pySplitColon ys
  | [], ys, _ => by simp [pySplitColon]
  | c :: xs, ys, h => by
    have hc : ¬ c = ':' := fun hc => h (by simp [hc])
    have hxs : ':' ∉ xs := fun hm => h (List.mem_cons_of_mem _ hm)
    simp only [List.cons_append, List.append_eq, pySplitColon, if_neg hc,
      pySplitColon_append xs ys hxs]

/-- C5 counterexample: the worker's peer listener does not recover a
colon-containing address verbatim — on
`WORKER_ANNOUNCE:worker-1:tcp://127.0.0.1:5555` its unlimited `split(":")`
yields `("worker-1", "tcp")`, not `("worker-1", "tcp://127.0.0.1:5555")`. -/
theorem announce_parse_counterexample :
    ¬ (listenForPeersParse sampleAnnounce =
        some ("worker-1".toList, "tcp://127.0.0.1:5555".toList)) := by
  decide

/-- C5 amended: the client's worker listener (which splits on at most the
first two colons) recovers `(id, address)` verbatim for every colon-free id
and arbitrary address, but the worker's peer listener (which splits on every
colon) recovers only the portion of the address before its first colon. -/
theorem announce_parse_amended (id a b : List Char) (hid : ':' ∉ id) (ha : ':' ∉ a) :
    listenForWorkersParse (announceTag ++ (id ++ (':' :: (a ++ (':' :: b))))) =
      some (id, a ++ (':' :: b)) ∧
    listenForPeersParse (announceTag ++ (id ++ (':' :: (a ++ (':' :: b))))) =
      some (id, a) := by
  have htagW : ':' ∉ "WORKER_ANNOUNCE".toList := by decide
  have htag : announceTag = "WORKER_ANNOUNCE".toList ++ [':'] := by decide
  have hpre : announceTag.isPrefixOf
      (announceTag ++ (id ++ (':' :: (a ++ (':' :: b))))) = true :=
    isPrefixOf_append_self announceTag _
  have hmsg : announceTag ++ (id ++ (':' :: (a ++ (':' :: b)))) =
      "WORKER_ANNOUNCE".toList ++ ':' :: (id ++ ':' :: (a ++ ':' :: b)) := by
    rw [htag]
    simp
  constructor
  · rw [listenForWorkersParse, if_pos hpre, hmsg]
    simp only [pySplitColon2, splitOnceColon_append _ _ htagW,
      splitOnceColon_append _ _ hid]
    simp
  · rw [listenForPeersParse, if_pos hpre, hmsg]
    simp only [pySplitColon_append _ _ htagW, pySplitColon_append _ _ hid,
      pySplitColon_append _ _ ha]
    simp

/-- C5 amended witness: on the concrete announcement
`WORKER_ANNOUNCE:worker-1:tcp://127.0.0.1:5555`, the client listener recovers
the address verbatim while the peer listener recovers only `tcp`. -/
theorem announce_parse_amended_witness :
    listenForWorkersParse sampleAnnounce =
      some ("worker-1".toList, "tcp://127.0.0.1:5555".toList) ∧
    listenForPeersParse sampleAnnounce = some ("worker-1".toList, "tcp".toList) := by
  have h := announce_parse_amended "worker-1".toList "tcp".toList "//127.0.0.1:5555".toList
    (by decide) (by decide)
  have hmsg : sampleAnnounce =
      announceTag ++ ("worker-1".toList ++
        (':' :: ("tcp".toList ++ (':' :: "//127.0.0.1:5555".toList)))) := by decide
  have haddr : "tcp://127.0.0.1:5555".toList =
      "tcp".toList ++ (':' :: "//127.0.0.1:5555".toList) := by decide
  rw [hmsg, haddr]
  exact h

/-- C7 counterexample: under the JSON format, serializing and deserializing a
Task wire message does not reproduce it — `json.dumps(..., default=str)`
renders the `created_at` datetime as a string, so the decoded dictionary
differs from the original on that field (and the `args` tuple comes back as a
list). -/
theorem serialization_roundtrip_counterexample :
    jsonDecode (jsonEncode sampleTaskMsg) ≠ sampleTaskMsg := by
  simp [sampleTaskMsg, taskMsg, jsonEncode, jsonEncodeList, jsonEncodeDict,
    jsonDecode, jsonDecodeList, jsonDecodeDict, datetimeRepr]

/-- C7 amended: the pickle format round-trips every core message value exactly
on every field; the JSON format round-trips exactly the JSON-safe values —
those containing no datetime and no tuple (registration, heartbeat,
result-query and result-query-response shapes) — while values carrying
datetimes or tuples (every Task message, and TaskResult messages with
timestamps) are not reproduced by JSON serialize-then-deserialize. -/
theorem serialization_roundtrip_amended (v : PyVal) :
    pickleDecode (pickleEncode v) = v ∧
    (jsonSafe v = true → jsonDecode (jsonEncode v) = v) :=
  ⟨pickle_roundtrip v, jsonSafe_roundtrip v⟩

/-- C7 amended witness: a registration message dictionary is JSON-safe and
round-trips under both formats. -/
theorem serialization_roundtrip_amended_witness :
    pickleDecode (pickleEncode sampleRegMsgVal) = sampleRegMsgVal ∧
    jsonDecode (jsonEncode sampleRegMsgVal) = sampleRegMsgVal :=
  ⟨(serialization_roundtrip_amended sampleRegMsgVal).1,
   (serialization_roundtrip_amended sampleRegMsgVal).2
     (by simp [sampleRegMsgVal, jsonSafe, jsonSafeList, jsonSafeDict])⟩

end FastWorker
